import Mathlib

/-!
Verification of the turbine-placement optimization model (src/Untitled8.ipynb).

The notebook builds three boolean relations from 2-D geometry (water-area
coverage `S_W`, rain-zone assignment `L_Z`, site adjacency `V`), repairs the
coverage matrix so every water-area row is nonempty, assembles a binary
integer program over site variables `x_j` and link variables `y_jk` (j < k),
and hands it to an external MILP solver.

Embedding conventions:
* Coordinates are integer points.  The source compares Euclidean distances
  against a threshold `r`; since the Euclidean norm is nonnegative and the
  square root is monotone, `dist p q ≤ r ↔ 0 ≤ r ∧ sqDist p q ≤ r * r`, so
  all comparisons (and the argmin of the repair pass) are carried out on
  squared distances, which keeps everything decidable.
* The site count is written `n + 1` where the source would crash on zero
  sites (the repair pass indexes `argmin` of a nonempty distance list).
* The external solver (pulp/CBC) is not part of the repository; it is
  modelled from the spec at the end of the definitions.
-/

/-- A 2-D point with integer coordinates. -/
abbrev Point := ℤ × ℤ

/-- Squared Euclidean distance between two points. -/
def sqDist (p q : Point) : ℤ :=
  (p.1 - q.1) * (p.1 - q.1) + (p.2 - q.2) * (p.2 - q.2)

/-- Embedding of the source's `distance <= r` test on Euclidean distances:
since the norm is nonnegative and squaring is monotone on nonnegatives,
`‖p - q‖ ≤ r ↔ 0 ≤ r ∧ sqDist p q ≤ r * r` for every threshold `r`. -/
def distLe (p q : Point) (r : ℤ) : Bool := decide (0 ≤ r ∧ sqDist p q ≤ r * r)

/-- Initial water-coverage matrix `S_W` (source lines building `S_W` before
the repair loop): entry `(i, j)` is true iff water area `i` is within
`water_sensor_range` of site `j`. -/
def S_W_init {m n : ℕ} (ci : Fin m → Point) (cj : Fin n → Point) (r : ℤ) :
    Fin m → Fin n → Bool :=
  fun i j => distLe (ci i) (cj j) r

/-- Index of the first minimum of `d` (the behaviour of `np.argmin`:
ties are broken by the lowest index). -/
def argminFin : {n : ℕ} → (Fin (n + 1) → ℤ) → Fin (n + 1)
  | 0, _ => 0
  | n + 1, d =>
    let t := argminFin (fun i => d i.succ)
    if d 0 ≤ d t.succ then (0 : Fin (n + 2)) else t.succ

/-- Repair of one coverage row (body of the source's repair loop): if the
row sums to zero, the entry of the closest site is set to 1. -/
def repairRow {n : ℕ} (d : Fin (n + 1) → ℤ) (row : Fin (n + 1) → Bool) :
    Fin (n + 1) → Bool :=
  if (∑ j, (row j).toNat) = 0 then Function.update row (argminFin d) true else row

/-- The Feasibility Repair Pass over the whole coverage matrix (source's
`for i in range(num_water_areas): if np.sum(S_W[i, :]) == 0: ...` loop). -/
def repairSW {m n : ℕ} (ci : Fin m → Point) (cj : Fin (n + 1) → Point)
    (S : Fin m → Fin (n + 1) → Bool) : Fin m → Fin (n + 1) → Bool :=
  fun i => repairRow (fun j => sqDist (ci i) (cj j)) (S i)

/-- Rain-zone matrix `L_Z`: zone `z` contains site `j` iff either `j < R`
and `z = j` (the seeding loop `L_Z[i, i] = 1`), or `j ≥ R` and the drawn
assignment `remaining[j - R]` equals `z` (the `remaining_assignments`
loop). `remaining` is the list of randomly drawn zone indices, passed in
explicitly. -/
def buildLZ (R L : ℕ) (remaining : List ℕ) : Fin R → Fin L → Bool :=
  fun z j =>
    if (j : ℕ) < R then decide ((z : ℕ) = (j : ℕ))
    else decide (remaining.getD ((j : ℕ) - R) 0 = (z : ℕ))

/-- Adjacency matrix `V` (source's double loop over `j < k`, setting both
`V[j, k]` and `V[k, j]` when the distance is within `comm_link_range`):
in closed form, `V j k` is true iff `j ≠ k` and the two sites are within
range. -/
def buildV {n : ℕ} (cj : Fin n → Point) (r : ℤ) : Fin n → Fin n → Bool :=
  fun j k => if j = k then false else distLe (cj j) (cj k) r

/-- Number of selected sites `Σ_j x_j`. -/
def sumX {n : ℕ} (x : Fin n → Bool) : ℕ := ∑ j, (x j).toNat

/-- Number of active links `Σ_{(j,k), j<k} y_jk`. -/
def sumY {n : ℕ} (y : Fin n → Fin n → Bool) : ℕ :=
  ∑ j, ∑ k, if j < k then (y j k).toNat else 0

/-- Active-link degree of site `j` (source's `links_to_j + links_from_j`). -/
def degree {n : ℕ} (y : Fin n → Fin n → Bool) (j : Fin n) : ℕ :=
  (∑ k, if k < j then (y k j).toNat else 0) + (∑ k, if j < k then (y j k).toNat else 0)

/-- The matrices the Model Assembler consumes: the (repaired) coverage
matrix, the zone matrix and the adjacency matrix. -/
structure ModelData (m R n : ℕ) where
  SW : Fin m → Fin n → Bool
  LZ : Fin R → Fin n → Bool
  V : Fin n → Fin n → Bool

/-- The assembled constraint system, exactly the constraints added to the
pulp model: `Force_Tree_Network`, `WaterCoverage_i`, `RainZone_z`,
`LinkActivation_j_k`, `LineOfSight_j_k` and `ConnectivityEnforcement_j`.
Links are the pairs `(j, k)` with `j < k`. -/
def Feasible {m R n : ℕ} (D : ModelData m R n) (x : Fin n → Bool)
    (y : Fin n → Fin n → Bool) : Prop :=
  ((sumY y : ℤ) = (sumX x : ℤ) - 1) ∧
  (∀ i, 1 ≤ ∑ j, (D.SW i j).toNat * (x j).toNat) ∧
  (∀ z, 1 ≤ ∑ j, (D.LZ z j).toNat * (x j).toNat) ∧
  (∀ j k : Fin n, j < k → 2 * (y j k).toNat ≤ (x j).toNat + (x k).toNat) ∧
  (∀ j k : Fin n, j < k → (y j k).toNat ≤ (D.V j k).toNat) ∧
  (∀ j, (x j).toNat ≤ degree y j)

instance {m R n : ℕ} (D : ModelData m R n) (x : Fin n → Bool)
    (y : Fin n → Fin n → Bool) : Decidable (Feasible D x y) := by
  unfold Feasible; infer_instance

/-- Solver status, as reported by the external solver. -/
inductive LpStatus where
  | Optimal
  | Infeasible
  | Unbounded
  | Undefined
deriving DecidableEq

/-- Modelled from the spec: the external MILP solver (pulp/CBC) is not part
of the repository; the spec's Solver Adapter contract is that it returns
`Optimal` exactly when the assembled system has a feasible assignment (the
variable space is finite, so a feasible system has an optimum) and
`Infeasible` when no feasible assignment exists. -/
def solveStatus {m R n : ℕ} (D : ModelData m R n) : LpStatus :=
  if ∃ x y, Feasible D x y then LpStatus.Optimal else LpStatus.Infeasible

example : sqDist (0, 0) (3, 4) = 25 := by decide
example : distLe (0, 0) (3, 4) 5 = true := by decide
example : distLe (0, 0) (3, 4) 4 = false := by decide
example : distLe (0, 0) (0, 0) 0 = true := by decide
example : argminFin (fun i : Fin 3 => if i = 1 then 0 else 5) = 1 := by decide

/-! ### Properties of the argmin used by the repair pass -/

theorem argminFin_le : ∀ {n : ℕ} (d : Fin (n + 1) → ℤ) (i : Fin (n + 1)),
    d (argminFin d) ≤ d i
  | 0, d, i => by
    have h : i = 0 := Fin.fin_one_eq_zero i
    subst h; exact le_refl _
  | n + 1, d, i => by
    have ih := fun i => argminFin_le (fun j => d j.succ) i
    unfold argminFin
    dsimp only
    by_cases h : d 0 ≤ d (argminFin fun j => d j.succ).succ
    · rw [if_pos h]
      cases i using Fin.cases with
      | zero => exact le_refl _
      | succ i => exact le_trans h (ih i)
    · rw [if_neg h]
      cases i using Fin.cases with
      | zero => exact le_of_lt (lt_of_not_le h)
      | succ i => exact ih i

theorem argminFin_first : ∀ {n : ℕ} (d : Fin (n + 1) → ℤ) (i : Fin (n + 1)),
    i < argminFin d → d (argminFin d) < d i
  | 0, d, i, h => by
    have h0 : i = 0 := Fin.fin_one_eq_zero i
    subst h0; exact absurd h (lt_irrefl _)
  | n + 1, d, i, h => by
    have ih := fun i => argminFin_first (fun j => d j.succ) i
    unfold argminFin at h ⊢
    dsimp only at h ⊢
    by_cases hle : d 0 ≤ d (argminFin fun j => d j.succ).succ
    · rw [if_pos hle] at h
      exact absurd h (Fin.not_lt_zero _)
    · rw [if_neg hle] at h ⊢
      cases i using Fin.cases with
      | zero => exact lt_of_not_le hle
      | succ i =>
        exact ih i (by exact_mod_cast Fin.succ_lt_succ_iff.mp h)

/-- Site `j` is at minimum distance according to `d`, with ties broken by
the lowest index: every site is at least as far, and every earlier site is
strictly farther. -/
def IsClosest {n : ℕ} (d : Fin (n + 1) → ℤ) (j : Fin (n + 1)) : Prop :=
  (∀ k, d j ≤ d k) ∧ (∀ k, k < j → d j < d k)

theorem isClosest_iff {n : ℕ} (d : Fin (n + 1) → ℤ) (j : Fin (n + 1)) :
    IsClosest d j ↔ j = argminFin d := by
  constructor
  · rintro ⟨hmin, hfirst⟩
    rcases lt_trichotomy j (argminFin d) with h | h | h
    · exact absurd (hmin (argminFin d)) (not_le_of_lt (argminFin_first d j h))
    · exact h
    · exact absurd (argminFin_le d j) (not_le_of_lt (hfirst (argminFin d) h))
  · rintro rfl
    exact ⟨argminFin_le d, argminFin_first d⟩

/-! ### Properties of the repair pass -/

theorem sum_toNat_eq_zero_iff {n : ℕ} (row : Fin n → Bool) :
    (∑ j, (row j).toNat) = 0 ↔ ∀ j, row j = false := by
  rw [Finset.sum_eq_zero_iff]
  constructor
  · intro h j
    have := h j (Finset.mem_univ j)
    cases hj : row j
    · rfl
    · rw [hj] at this; exact absurd this one_ne_zero
  · intro h j _
    rw [h j]; rfl

theorem repairRow_of_nonzero {n : ℕ} (d : Fin (n + 1) → ℤ) (row : Fin (n + 1) → Bool)
    (h : (∑ j, (row j).toNat) ≠ 0) : repairRow d row = row := by
  rw [repairRow, if_neg h]

theorem repairRow_of_zero {n : ℕ} (d : Fin (n + 1) → ℤ) (row : Fin (n + 1) → Bool)
    (h : (∑ j, (row j).toNat) = 0) :
    repairRow d row = Function.update row (argminFin d) true := by
  rw [repairRow, if_pos h]

theorem repairRow_sum_ne_zero {n : ℕ} (d : Fin (n + 1) → ℤ) (row : Fin (n + 1) → Bool) :
    (∑ j, ((repairRow d row j).toNat)) ≠ 0 := by
  by_cases h : (∑ j, (row j).toNat) = 0
  · rw [repairRow_of_zero d row h]
    intro hcon
    have hall := (sum_toNat_eq_zero_iff _).mp hcon (argminFin d)
    rw [Function.update_same] at hall
    exact Bool.noConfusion hall
  · rw [repairRow_of_nonzero d row h]
    exact h

theorem repairRow_idem {n : ℕ} (d : Fin (n + 1) → ℤ) (row : Fin (n + 1) → Bool) :
    repairRow d (repairRow d row) = repairRow d row :=
  repairRow_of_nonzero d _ (repairRow_sum_ne_zero d row)

instance {n : ℕ} (d : Fin (n + 1) → ℤ) (j : Fin (n + 1)) : Decidable (IsClosest d j) := by
  unfold IsClosest; infer_instance

theorem sum_toNat_ne_zero_exists {n : ℕ} (row : Fin n → Bool)
    (h : (∑ j, (row j).toNat) ≠ 0) : ∃ j, row j = true := by
  by_contra hcon
  push_neg at hcon
  exact h ((sum_toNat_eq_zero_iff row).mpr fun j => Bool.eq_false_iff.mpr (hcon j))

/-- C3: the Feasibility Repair Pass leaves every row with a nonzero sum
unchanged; it rewrites every all-zero row into the indicator of the site at
minimum Euclidean distance to that water area, ties broken by the lowest
site index; and afterwards every water-area row has at least one true
entry. -/
theorem repair_pass_spec {m n : ℕ} (ci : Fin m → Point) (cj : Fin (n + 1) → Point)
    (r : ℤ) :
    (∀ i, (∑ j, ((S_W_init ci cj r) i j).toNat) ≠ 0 →
      ∀ j, repairSW ci cj (S_W_init ci cj r) i j = S_W_init ci cj r i j) ∧
    (∀ i, (∑ j, ((S_W_init ci cj r) i j).toNat) = 0 →
      ∀ j, (repairSW ci cj (S_W_init ci cj r) i j = true ↔
        IsClosest (fun k => sqDist (ci i) (cj k)) j)) ∧
    (∀ i, ∃ j, repairSW ci cj (S_W_init ci cj r) i j = true) := by
  refine ⟨?_, ?_, ?_⟩
  · intro i hi j
    show repairRow _ (S_W_init ci cj r i) j = _
    rw [repairRow_of_nonzero _ _ hi]
  · intro i hi j
    show repairRow _ (S_W_init ci cj r i) j = true ↔ _
    rw [repairRow_of_zero _ _ hi, isClosest_iff]
    constructor
    · intro hj
      by_contra hne
      rw [Function.update_noteq hne] at hj
      have := (sum_toNat_eq_zero_iff _).mp hi j
      rw [this] at hj
      exact Bool.noConfusion hj
    · rintro rfl
      exact Function.update_same _ _ _
  · intro i
    exact sum_toNat_ne_zero_exists _ (repairRow_sum_ne_zero _ (S_W_init ci cj r i))

/-- Concrete geometry for the repair-pass witness: one water area at
`(10, 0)`, two candidate sites at `(0, 0)` and `(7, 0)`, sensor range 1, so
the water-area row starts all-zero and site 1 is strictly closest. -/
def ciW : Fin 1 → Point := fun _ => (10, 0)

def cjW : Fin 2 → Point := fun j => if j = 0 then (0, 0) else (7, 0)

/-- Witness for C3 at the concrete geometry: the row is initially all-zero
and the repair pass sets exactly the entry of the closest site (site 1). -/
theorem repair_pass_spec_witness :
    (∑ j, ((S_W_init ciW cjW 1) 0 j).toNat) = 0 ∧
    repairSW ciW cjW (S_W_init ciW cjW 1) 0 1 = true ∧
    repairSW ciW cjW (S_W_init ciW cjW 1) 0 0 = false := by
  have h := repair_pass_spec ciW cjW 1
  refine ⟨by decide, (h.2.1 0 (by decide) 1).mpr (by decide), ?_⟩
  by_contra hcon
  have h0 : repairSW ciW cjW (S_W_init ciW cjW 1) 0 0 = true := by
    cases hv : repairSW ciW cjW (S_W_init ciW cjW 1) 0 0
    · exact absurd hv hcon
    · rfl
  exact absurd ((h.2.1 0 (by decide) 0).mp h0) (by decide)

/-- C4: the Feasibility Repair Pass is idempotent: for every coverage
matrix and every geometry supplying the distance data, applying the repair
twice yields exactly the matrix obtained by applying it once. -/
theorem repair_pass_idempotent {m n : ℕ} (ci : Fin m → Point)
    (cj : Fin (n + 1) → Point) (S : Fin m → Fin (n + 1) → Bool) :
    repairSW ci cj (repairSW ci cj S) = repairSW ci cj S := by
  funext i
  exact repairRow_idem (fun j => sqDist (ci i) (cj j)) (S i)

/-! ### Adjacency and zone matrices -/

theorem sqDist_comm (p q : Point) : sqDist p q = sqDist q p := by
  unfold sqDist; ring

theorem sqDist_nonneg (p q : Point) : 0 ≤ sqDist p q := by
  unfold sqDist
  have h1 := mul_self_nonneg (p.1 - q.1)
  have h2 := mul_self_nonneg (p.2 - q.2)
  linarith

theorem sqDist_eq_zero_iff (p q : Point) : sqDist p q = 0 ↔ p = q := by
  unfold sqDist
  constructor
  · intro h
    have h1 := mul_self_nonneg (p.1 - q.1)
    have h2 := mul_self_nonneg (p.2 - q.2)
    have e1 : (p.1 - q.1) * (p.1 - q.1) = 0 := by linarith
    have e2 : (p.2 - q.2) * (p.2 - q.2) = 0 := by linarith
    have : p.1 = q.1 := by
      have := mul_self_eq_zero.mp e1; linarith
    have : p.2 = q.2 := by
      have := mul_self_eq_zero.mp e2; linarith
    exact Prod.ext (by omega) (by omega)
  · rintro rfl; ring

/-- C9: for every set of site coordinates and every `comm_link_range`
threshold, the adjacency matrix is symmetric, has a zero diagonal, and has
a true entry exactly at the distinct pairs within communication range
(on squared distances: `0 ≤ r ∧ sqDist ≤ r * r`, which is equivalent to
`‖pos j − pos k‖ ≤ r`). -/
theorem adjacency_spec {n : ℕ} (cj : Fin n → Point) (r : ℤ) :
    (∀ j k, buildV cj r j k = buildV cj r k j) ∧
    (∀ j, buildV cj r j j = false) ∧
    (∀ j k, buildV cj r j k = true ↔
      j ≠ k ∧ 0 ≤ r ∧ sqDist (cj j) (cj k) ≤ r * r) := by
  refine ⟨?_, ?_, ?_⟩
  · intro j k
    unfold buildV
    by_cases h : j = k
    · subst h; rfl
    · rw [if_neg h, if_neg (Ne.symm h)]
      unfold distLe
      rw [sqDist_comm]
  · intro j
    unfold buildV
    rw [if_pos rfl]
  · intro j k
    unfold buildV distLe
    by_cases h : j = k
    · rw [if_pos h]
      simp only [Bool.false_eq_true, false_iff]
      rintro ⟨hne, -⟩
      exact hne h
    · rw [if_neg h]
      simp only [decide_eq_true_eq]
      tauto

/-- C8: each site `j < num_rain_zones` is assigned to zone `j`; every site
belongs to exactly one zone; and, when the zone count is positive and at
most the site count, every zone contains at least one site. -/
theorem zone_assignment_spec (R L : ℕ) (remaining : List ℕ)
    (hRL : R ≤ L) (hlen : remaining.length = L - R)
    (hvals : ∀ v ∈ remaining, v < R) :
    (∀ j : Fin L, (j : ℕ) < R →
      ∀ z : Fin R, (buildLZ R L remaining z j = true ↔ (z : ℕ) = (j : ℕ))) ∧
    (∀ j : Fin L, ∃! z : Fin R, buildLZ R L remaining z j = true) ∧
    (∀ z : Fin R, ∃ j : Fin L, buildLZ R L remaining z j = true) := by
  have hdiag : ∀ j : Fin L, (j : ℕ) < R →
      ∀ z : Fin R, (buildLZ R L remaining z j = true ↔ (z : ℕ) = (j : ℕ)) := by
    intro j hj z
    unfold buildLZ
    rw [if_pos hj]
    exact decide_eq_true_iff
  refine ⟨hdiag, ?_, ?_⟩
  · intro j
    by_cases hj : (j : ℕ) < R
    · refine ⟨⟨(j : ℕ), hj⟩, (hdiag j hj _).mpr rfl, ?_⟩
      intro z hz
      exact Fin.ext ((hdiag j hj z).mp hz)
    · have hidx : (j : ℕ) - R < remaining.length := by
        rw [hlen]; omega
      have hv : remaining.getD ((j : ℕ) - R) 0 < R := by
        rw [List.getD_eq_getElem remaining 0 hidx]
        exact hvals _ (List.getElem_mem hidx)
      have hval : ∀ z : Fin R, (buildLZ R L remaining z j = true ↔
          remaining.getD ((j : ℕ) - R) 0 = (z : ℕ)) := by
        intro z
        unfold buildLZ
        rw [if_neg hj]
        exact decide_eq_true_iff
      refine ⟨⟨remaining.getD ((j : ℕ) - R) 0, hv⟩, (hval _).mpr rfl, ?_⟩
      intro z hz
      exact Fin.ext ((hval z).mp hz).symm
  · intro z
    refine ⟨⟨(z : ℕ), lt_of_lt_of_le z.2 hRL⟩, ?_⟩
    exact (hdiag _ z.2 z).mpr rfl

/-- Witness for C8 at `R = 2`, `L = 3`, drawn assignment `[1]`: site 0 is
in zone 0 (and only zone 0), site 2 lands in zone 1, and both zones are
inhabited. -/
theorem zone_assignment_spec_witness :
    (buildLZ 2 3 [1] 0 0 = true) ∧ (buildLZ 2 3 [1] 1 0 = false) ∧
    (∃ j : Fin 3, buildLZ 2 3 [1] 1 j = true) := by
  have h := zone_assignment_spec 2 3 [1] (by decide)
    (by decide) (by decide)
  refine ⟨(h.1 0 (by decide) 0).mpr (by decide), ?_, h.2.2 1⟩
  by_contra hcon
  have h1 : buildLZ 2 3 [1] 1 0 = true := by
    cases hv : buildLZ 2 3 [1] 1 0
    · exact absurd hv hcon
    · rfl
  exact absurd ((h.1 0 (by decide) 1).mp h1) (by decide)

/-! ### Structure of feasible assignments -/

theorem sumY_eq_zero_iff {n : ℕ} (y : Fin n → Fin n → Bool) :
    sumY y = 0 ↔ ∀ j k : Fin n, j < k → y j k = false := by
  unfold sumY
  rw [Finset.sum_eq_zero_iff]
  constructor
  · intro h j k hjk
    have hj := h j (Finset.mem_univ j)
    rw [Finset.sum_eq_zero_iff] at hj
    have hk := hj k (Finset.mem_univ k)
    rw [if_pos hjk] at hk
    cases hy : y j k
    · rfl
    · rw [hy] at hk; exact absurd hk one_ne_zero
  · intro h j _
    apply Finset.sum_eq_zero
    intro k _
    by_cases hjk : j < k
    · rw [if_pos hjk, h j k hjk]; rfl
    · rw [if_neg hjk]

theorem degree_eq_zero_of_no_links {n : ℕ} (y : Fin n → Fin n → Bool)
    (h : ∀ j k : Fin n, j < k → y j k = false) (j : Fin n) : degree y j = 0 := by
  unfold degree
  have h1 : (∑ k, if k < j then (y k j).toNat else 0) = 0 := by
    apply Finset.sum_eq_zero
    intro k _
    by_cases hk : k < j
    · rw [if_pos hk, h k j hk]; rfl
    · rw [if_neg hk]
  have h2 : (∑ k, if j < k then (y j k).toNat else 0) = 0 := by
    apply Finset.sum_eq_zero
    intro k _
    by_cases hk : j < k
    · rw [if_pos hk, h j k hk]; rfl
    · rw [if_neg hk]
  omega

theorem two_le_sumX_of_feasible {m R n : ℕ} (D : ModelData m R n)
    (x : Fin n → Bool) (y : Fin n → Fin n → Bool) (h : Feasible D x y) :
    2 ≤ sumX x := by
  obtain ⟨htree, -, -, hact, -, hdeg⟩ := h
  by_contra hlt
  have hcases : sumX x = 0 ∨ sumX x = 1 := by omega
  rcases hcases with h0 | h1
  · rw [h0] at htree
    omega
  · rw [h1] at htree
    have hy0 : sumY y = 0 := by omega
    have hnolinks := (sumY_eq_zero_iff y).mp hy0
    obtain ⟨j, hj⟩ := sum_toNat_ne_zero_exists x (by rw [show (∑ j, (x j).toNat) = sumX x from rfl, h1]; omega)
    have hd := hdeg j
    rw [degree_eq_zero_of_no_links y hnolinks j, hj] at hd
    exact absurd hd (by decide)

/-- C2: every binary assignment satisfying the assembled constraint system
selects at least two sites: zero selected sites contradicts the tree-size
constraint (the link count would have to be −1), and a single selected site
would need degree ≥ 1 while link activation forbids every link touching an
unselected endpoint. -/
theorem feasible_selects_at_least_two {m R n : ℕ} (D : ModelData m R n)
    (x : Fin n → Bool) (y : Fin n → Fin n → Bool) (h : Feasible D x y) :
    2 ≤ sumX x :=
  two_le_sumX_of_feasible D x y h

/-- Concrete model data for the feasibility witnesses: two sites, one water
area covered by site 0, one zone containing site 0, all distinct pairs
adjacent; selecting both sites with the single link active is feasible. -/
def dataB : ModelData 1 1 2 where
  SW := fun _ j => decide (j = 0)
  LZ := fun _ j => decide (j = 0)
  V := fun j k => decide (j ≠ k)

def xB : Fin 2 → Bool := fun _ => true

def yB : Fin 2 → Fin 2 → Bool := fun j k => decide (j < k)

/-- Witness for C2: the two-site assignment is feasible and selects two
sites. -/
theorem feasible_selects_at_least_two_witness :
    Feasible dataB xB yB ∧ 2 ≤ sumX xB :=
  ⟨by decide, feasible_selects_at_least_two dataB xB yB (by decide)⟩

/-- C5: every binary assignment satisfying the assembled constraint system
(in particular any solver-optimal one) has an active-link count equal to
the selected-site count minus one. -/
theorem tree_size_exact {m R n : ℕ} (D : ModelData m R n)
    (x : Fin n → Bool) (y : Fin n → Fin n → Bool) (h : Feasible D x y) :
    (sumY y : ℤ) = (sumX x : ℤ) - 1 :=
  h.1

/-- Witness for C5: on the concrete feasible two-site assignment the link
count is one less than the site count. -/
theorem tree_size_exact_witness :
    Feasible dataB xB yB ∧ (sumY yB : ℤ) = (sumX xB : ℤ) - 1 :=
  ⟨by decide, tree_size_exact dataB xB yB (by decide)⟩

/-- C6: in every assignment satisfying the assembled constraint system,
an active link has both endpoints selected and within communication range
(a true adjacency entry). -/
theorem active_link_endpoints_selected {m R n : ℕ} (D : ModelData m R n)
    (x : Fin n → Bool) (y : Fin n → Fin n → Bool) (h : Feasible D x y)
    (j k : Fin n) (hjk : j < k) (hy : y j k = true) :
    x j = true ∧ x k = true ∧ D.V j k = true := by
  obtain ⟨-, -, -, hact, hlos, -⟩ := h
  have h1 := hact j k hjk
  have h2 := hlos j k hjk
  rw [hy] at h1 h2
  have hbj := Bool.toNat_le (x j)
  have hbk := Bool.toNat_le (x k)
  rw [Bool.toNat_true] at h1 h2
  refine ⟨?_, ?_, ?_⟩
  · cases hxj : x j
    · rw [hxj, Bool.toNat_false] at h1
      exact absurd h1 (by omega)
    · rfl
  · cases hxk : x k
    · rw [hxk, Bool.toNat_false] at h1
      exact absurd h1 (by omega)
    · rfl
  · cases hv : D.V j k
    · rw [hv, Bool.toNat_false] at h2
      exact absurd h2 (by omega)
    · rfl

/-- Witness for C6: on the concrete feasible two-site assignment the
active link (0, 1) has both endpoints selected and adjacent. -/
theorem active_link_endpoints_selected_witness :
    xB 0 = true ∧ xB 1 = true ∧ dataB.V 0 1 = true :=
  active_link_endpoints_selected dataB xB yB (by decide) 0 1 (by decide) (by decide)

/-! ### Single-site scenarios and zero communication range -/

/-- C1 (amended): with a single candidate site, the assembled constraint
system has no feasible assignment at all — the degree-connectivity
constraint forces the selected site to have an active link while no link
exists — so the modelled solver reports `Infeasible`, never `Optimal`. -/
theorem single_site_model_infeasible (m R : ℕ) (D : ModelData m R 1) :
    (∀ x y, ¬ Feasible D x y) ∧ solveStatus D = LpStatus.Infeasible := by
  have hnot : ∀ (x : Fin 1 → Bool) (y : Fin 1 → Fin 1 → Bool), ¬ Feasible D x y := by
    intro x y h
    have h2 := two_le_sumX_of_feasible D x y h
    have h1 : sumX x ≤ 1 := by
      unfold sumX
      rw [Fin.sum_univ_one]
      exact Bool.toNat_le _
    omega
  refine ⟨hnot, ?_⟩
  unfold solveStatus
  rw [if_neg]
  rintro ⟨x, y, hxy⟩
  exact hnot x y hxy

/-- Geometry of the single-site scenario: one candidate site at the origin,
one water area at the origin (inside sensor range), one rain zone
containing the site. -/
def cjA : Fin 1 → Point := fun _ => (0, 0)

def ciA : Fin 1 → Point := fun _ => (0, 0)

def dataA : ModelData 1 1 1 where
  SW := repairSW ciA cjA (S_W_init ciA cjA 500)
  LZ := buildLZ 1 1 []
  V := buildV cjA 1500

/-- Counterexample to C1: in the concrete single-site scenario there is no
feasible assignment selecting the one site with no active links (nor any
feasible assignment at all), and the solver status is `Infeasible`, not
`Optimal`. -/
theorem single_site_scenario_not_optimal :
    (¬ ∃ (x : Fin 1 → Bool) (y : Fin 1 → Fin 1 → Bool),
      Feasible dataA x y ∧ x 0 = true ∧ sumY y = 0) ∧
    solveStatus dataA = LpStatus.Infeasible ∧
    solveStatus dataA ≠ LpStatus.Optimal := by
  refine ⟨by decide, by decide, by decide⟩

/-- C7: with the communication range set to 0 and pairwise distinct site
positions — given that the constraints force at least two selected sites —
the assembled system admits no feasible assignment and the modelled solver
reports `Infeasible` rather than `Optimal`. -/
theorem comm_range_zero_infeasible {mw R n : ℕ} (cj : Fin n → Point)
    (SW : Fin mw → Fin n → Bool) (LZ : Fin R → Fin n → Bool)
    (hdist : ∀ j k : Fin n, j ≠ k → cj j ≠ cj k)
    (hcov : ∀ x y, Feasible ⟨SW, LZ, buildV cj 0⟩ x y → 2 ≤ sumX x) :
    (∀ x y, ¬ Feasible ⟨SW, LZ, buildV cj 0⟩ x y) ∧
    solveStatus ⟨SW, LZ, buildV cj 0⟩ = LpStatus.Infeasible := by
  have hnot : ∀ x y, ¬ Feasible ⟨SW, LZ, buildV cj 0⟩ x y := by
    intro x y h
    have h2 := hcov x y h
    have htree := h.1
    have hlos := h.2.2.2.2.1
    have hy : sumY y ≠ 0 := by omega
    have hlink : ∃ j k : Fin n, j < k ∧ y j k = true := by
      by_contra hcon
      push_neg at hcon
      exact hy ((sumY_eq_zero_iff y).mpr fun j k hjk =>
        Bool.eq_false_iff.mpr (hcon j k hjk))
    obtain ⟨j, k, hjk, hyjk⟩ := hlink
    have hV := hlos j k hjk
    rw [hyjk, Bool.toNat_true] at hV
    have hVtrue : buildV cj 0 j k = true := by
      have hV2 : 1 ≤ (buildV cj 0 j k).toNat := hV
      cases hv : buildV cj 0 j k
      · rw [hv, Bool.toNat_false] at hV2; omega
      · rfl
    have hne : j ≠ k := Fin.ne_of_lt hjk
    unfold buildV at hVtrue
    rw [if_neg hne] at hVtrue
    unfold distLe at hVtrue
    have hd := of_decide_eq_true hVtrue
    have hzero : sqDist (cj j) (cj k) = 0 :=
      le_antisymm (by simpa using hd.2) (sqDist_nonneg _ _)
    exact hdist j k hne ((sqDist_eq_zero_iff _ _).mp hzero)
  refine ⟨hnot, ?_⟩
  unfold solveStatus
  rw [if_neg]
  rintro ⟨x, y, hxy⟩
  exact hnot x y hxy

/-- Witness for C7 at the two distinct sites of `cjW`: the hypotheses hold
and the modelled solver reports `Infeasible` with the range set to 0. -/
theorem comm_range_zero_infeasible_witness :
    solveStatus ⟨fun (_ : Fin 1) (_ : Fin 2) => true,
      fun (_ : Fin 1) (_ : Fin 2) => true, buildV cjW 0⟩ = LpStatus.Infeasible :=
  (comm_range_zero_infeasible cjW (fun _ _ => true) (fun _ _ => true)
    (by decide) (by decide)).2

/-! ### Result interpretation -/

/-- Selected-site set of an assignment: the sites with `x_j = 1`. -/
def selectedSites {n : ℕ} (x : Fin n → Bool) : Finset (Fin n) :=
  Finset.univ.filter fun j => x j = true

/-- Active-link set of an assignment: the links `(j, k)`, `j < k`, with
`y_jk = 1`. -/
def activeLinks {n : ℕ} (y : Fin n → Fin n → Bool) : Finset (Fin n × Fin n) :=
  Finset.univ.filter fun p => p.1 < p.2 ∧ y p.1 p.2 = true

/-- The derived quantities the Result Interpreter reports on `Optimal`. -/
structure CostReport where
  turbineCount : ℕ
  capex : ℕ
  opexAnnual : ℕ
  totalCost : ℕ
  linkCount : ℕ

/-- The Result Interpreter's arithmetic on an optimal assignment (source's
`final_capex`, `final_opex_annual` and `final_total_cost` lines). -/
def interpret {n : ℕ} (x : Fin n → Bool) (y : Fin n → Fin n → Bool)
    (capexPer opexPer T : ℕ) : CostReport where
  turbineCount := (selectedSites x).card
  capex := (selectedSites x).card * capexPer
  opexAnnual := (selectedSites x).card * opexPer
  totalCost := (selectedSites x).card * capexPer + T * ((selectedSites x).card * opexPer)
  linkCount := (activeLinks y).card

/-- The Result Interpreter: derived quantities are produced only on
`Optimal` status (source's `if pulp.LpStatus[model.status] == 'Optimal'`
branch). -/
def reportOf {n : ℕ} (st : LpStatus) (x : Fin n → Bool)
    (y : Fin n → Fin n → Bool) (capexPer opexPer T : ℕ) : Option CostReport :=
  match st with
  | LpStatus.Optimal => some (interpret x y capexPer opexPer T)
  | _ => none

/-- C10: on `Optimal` status the interpreter derives the costs by exact
integer arithmetic from the selected-site count: capital cost is
`count × CAPEX-per-turbine`, annual operating cost is
`count × OPEX-per-turbine`, and the total cost of ownership is
`capital + T × annual`. -/
theorem result_interpreter_costs {n : ℕ} (x : Fin n → Bool)
    (y : Fin n → Fin n → Bool) (capexPer opexPer T : ℕ) :
    ∃ rep, reportOf LpStatus.Optimal x y capexPer opexPer T = some rep ∧
      rep.turbineCount = (selectedSites x).card ∧
      rep.capex = rep.turbineCount * capexPer ∧
      rep.opexAnnual = rep.turbineCount * opexPer ∧
      rep.totalCost = rep.capex + T * rep.opexAnnual :=
  ⟨interpret x y capexPer opexPer T, rfl, rfl, rfl, rfl, rfl⟩
